import Mathlib

/-!
Verification development for the static-site asset build pipeline of the
Nigerian church landing page repository.

The pure text transformations of `scripts/optimize-css.js` and the build
orchestration script (`minifyCSS`, `purgeUnusedCSS`, the script minifier of
`minifyJSFile`, `optimizeHTMLFile`, `validatePerformanceBudget`,
`processUnsplashImages`, `build`) are embedded as executable functions on
`List Char`.  Each JavaScript regular-expression replacement is translated
into a structurally recursive scanner with the same leftmost-match,
global-continuation semantics as the JS engine; scanners that skip over a
matched region carry an explicit mode argument instead of jumping, so that
every definition evaluates by kernel reduction.
-/

/-- JS `\s` character class (ASCII part plus the Unicode space separators
that the JS engine recognises). -/
def isWS (c : Char) : Bool :=
  c = ' ' || c = '\t' || c = '\n' || c = '\r' || c = '\x0b' || c = '\x0c' ||
  c.val = 0x00A0 || c.val = 0x1680 || (0x2000 ≤ c.val && c.val ≤ 0x200A) ||
  c.val = 0x2028 || c.val = 0x2029 || c.val = 0x202F || c.val = 0x205F ||
  c.val = 0x3000 || c.val = 0xFEFF

/-- JS line terminators, which `.` in a regular expression does not match. -/
def isEol (c : Char) : Bool :=
  c = '\n' || c = '\r' || c.val = 0x2028 || c.val = 0x2029

/-- Leading whitespace of a list. -/
def takeWS (l : List Char) : List Char := l.takeWhile isWS

/-- A list with its leading whitespace removed. -/
def dropWS (l : List Char) : List Char := l.dropWhile isWS

/-- Whether `*/` occurs somewhere in the list. -/
def hasCloseComment : List Char → Bool
  | '*' :: '/' :: _ => true
  | _ :: rest => hasCloseComment rest
  | [] => false

/-- Worker for `removeBlockComments`; the Boolean is true while inside a
comment, where characters are dropped until the first `*/`. -/
def removeBlockCommentsGo : Bool → List Char → List Char
  | false, [] => []
  | false, '/' :: '*' :: rest =>
    if hasCloseComment rest then removeBlockCommentsGo true rest
    else '/' :: '*' :: rest
  | false, c :: rest => c :: removeBlockCommentsGo false rest
  | true, '*' :: '/' :: rest => removeBlockCommentsGo false rest
  | true, _ :: rest => removeBlockCommentsGo true rest
  | true, [] => []

/-- The replacement `s.replace(/\/\*[\s\S]*?\*\//g, '')`: drop every
non-greedy block comment `/* ... */`; a `/*` with no later `*/` is left in
place (the regex does not match there and no later position can match). -/
def removeBlockComments (l : List Char) : List Char :=
  removeBlockCommentsGo false l

/-- Worker for `removeLineComments`; the Boolean is true inside a `//`
comment, where characters are dropped up to (excluding) a line
terminator. -/
def removeLineCommentsGo : Bool → List Char → List Char
  | _, [] => []
  | false, '/' :: '/' :: rest => removeLineCommentsGo true rest
  | false, c :: rest => c :: removeLineCommentsGo false rest
  | true, c :: rest =>
    if isEol c then c :: removeLineCommentsGo false rest
    else removeLineCommentsGo true rest

/-- The replacement `s.replace(/\/\/.*/g, '')`. -/
def removeLineComments (l : List Char) : List Char :=
  removeLineCommentsGo false l

/-- The replacement `s.replace(/\s+/g, ' ')`: each maximal whitespace run
becomes a single space (the space is emitted at the last character of the
run, which yields the same string as the JS replacement). -/
def collapseWS : List Char → List Char
  | [] => []
  | c :: rest =>
    if isWS c then
      match rest with
      | [] => [' ']
      | d :: _ => if isWS d then collapseWS rest else ' ' :: collapseWS rest
    else c :: collapseWS rest

/-- Whether a list starts with a `P`-character. -/
def headIsPunct (P : Char → Bool) : List Char → Bool
  | d :: _ => P d
  | [] => false

/-- Worker for `stripAroundPunct`.  The Boolean is true directly after an
emitted `P`-character, where the trailing `\s*` of the match is still
consuming whitespace.  A whitespace character outside that mode is dropped
exactly when its whitespace run is followed by a `P`-character (it then
belongs to the leading `\s*` of a match). -/
def stripPunctWS (P : Char → Bool) : Bool → List Char → List Char
  | _, [] => []
  | dropMode, c :: rest =>
    if isWS c then
      if dropMode then stripPunctWS P true rest
      else if headIsPunct P (dropWS rest) then stripPunctWS P false rest
      else c :: stripPunctWS P false rest
    else if P c then c :: stripPunctWS P true rest
    else c :: stripPunctWS P false rest

/-- The replacement `s.replace(/\s*([P])\s*/g, '$1')` for a punctuation
class `P`: whitespace adjacent to a `P`-character is dropped. -/
def stripAroundPunct (P : Char → Bool) (l : List Char) : List Char :=
  stripPunctWS P false l

/-- The replacement `s.replace(/;}/g, '}')`. -/
def dropSemiBeforeBrace : List Char → List Char
  | [] => []
  | ';' :: '}' :: rest => '}' :: dropSemiBeforeBrace rest
  | c :: rest => c :: dropSemiBeforeBrace rest

def isBrace (c : Char) : Bool := c = '{' || c = '}'

def headIs (c : Char) : List Char → Bool
  | d :: _ => d = c
  | [] => false

/-- Worker for `removeEmptyRules`.  `seg` is the reversed run of non-brace
characters read since the last brace (the candidate `[^{}]+` part); the
Boolean is true while deleting the whitespace body of a matched empty block
up to its `}`. -/
def removeEmptyRulesGo : Bool → List Char → List Char → List Char
  | true, _, c :: rest =>
    if c = '}' then removeEmptyRulesGo false [] rest
    else removeEmptyRulesGo true [] rest
  | true, _, [] => []
  | false, seg, [] => seg.reverse
  | false, seg, '{' :: rest =>
    if !seg.isEmpty && headIs '}' (dropWS rest) then removeEmptyRulesGo true [] rest
    else seg.reverse ++ '{' :: removeEmptyRulesGo false [] rest
  | false, seg, '}' :: rest => seg.reverse ++ '}' :: removeEmptyRulesGo false [] rest
  | false, seg, c :: rest => removeEmptyRulesGo false (c :: seg) rest

/-- The replacement `s.replace(/[^{}]+\{\s*\}/g, '')`: a non-empty brace-free
selector directly followed by a whitespace-only block is dropped. -/
def removeEmptyRules (l : List Char) : List Char :=
  removeEmptyRulesGo false [] l

/-- JS `String.prototype.trim`. -/
def trimL (l : List Char) : List Char :=
  (dropWS ((dropWS l).reverse)).reverse

/-- The punctuation class `[{}:;,>+~]` of `minifyCSS`. -/
def isCSSPunct (c : Char) : Bool :=
  c = '{' || c = '}' || c = ':' || c = ';' || c = ',' || c = '>' || c = '+' || c = '~'

/-- The punctuation class `[{}();,:]` of the script minifier. -/
def isJSPunct (c : Char) : Bool :=
  c = '{' || c = '}' || c = '(' || c = ')' || c = ';' || c = ',' || c = ':'

/-- `minifyCSS` from `scripts/optimize-css.js` (lines 127-151): strip block
comments, collapse whitespace runs, strip whitespace around `[{}:;,>+~]`,
rewrite `;}` to `}`, drop empty rules, trim. -/
def minifyCSS (css : List Char) : List Char :=
  trimL (removeEmptyRules (dropSemiBeforeBrace
    (stripAroundPunct isCSSPunct (collapseWS (removeBlockComments css)))))

/-- The text transformation performed by `minifyJSFile` in the build script
(lines 260-293): strip block comments, strip line comments, collapse
whitespace runs, strip whitespace around `[{}();,:]`, trim. -/
def minifyJS (content : List Char) : List Char :=
  trimL (stripAroundPunct isJSPunct
    (collapseWS (removeLineComments (removeBlockComments content))))

/-- Three-character lookahead `(?!\[if)` used by the HTML comment stripper. -/
def isBracketIf : List Char → Bool
  | '[' :: 'i' :: 'f' :: _ => true
  | _ => false

/-- Whether `-->` occurs somewhere in the list. -/
def hasCommentClose : List Char → Bool
  | '-' :: '-' :: '>' :: _ => true
  | _ :: rest => hasCommentClose rest
  | [] => false

/-- Worker for `stripHTMLComments`; the Boolean is true inside a comment,
where characters are dropped until the first `-->`. -/
def stripHTMLCommentsGo : Bool → List Char → List Char
  | false, [] => []
  | false, '<' :: '!' :: '-' :: '-' :: rest =>
    if isBracketIf rest then '<' :: stripHTMLCommentsGo false ('!' :: '-' :: '-' :: rest)
    else if hasCommentClose rest then stripHTMLCommentsGo true rest
    else '<' :: '!' :: '-' :: '-' :: rest
  | false, c :: rest => c :: stripHTMLCommentsGo false rest
  | true, '-' :: '-' :: '>' :: rest => stripHTMLCommentsGo false rest
  | true, _ :: rest => stripHTMLCommentsGo true rest
  | true, [] => []

/-- The replacement `s.replace(/<!--(?!\[if)[\s\S]*?-->/g, '')` of
`optimizeHTMLFile`: drop HTML comments except IE conditionals. -/
def stripHTMLComments (l : List Char) : List Char :=
  stripHTMLCommentsGo false l

/-- Worker for `collapseBetweenTags`; the Boolean is true directly after an
emitted `>` while only matched whitespace has been consumed since, so a
whitespace character in that mode is dropped exactly when its run is
followed by `<`. -/
def collapseBetweenTagsGo : Bool → List Char → List Char
  | _, [] => []
  | afterGt, c :: rest =>
    if c = '>' then '>' :: collapseBetweenTagsGo true rest
    else if afterGt && isWS c && headIs '<' (dropWS rest) then
      collapseBetweenTagsGo true rest
    else c :: collapseBetweenTagsGo false rest

/-- The replacement `s.replace(/>\s+</g, '><')` of `optimizeHTMLFile`. -/
def collapseBetweenTags (l : List Char) : List Char :=
  collapseBetweenTagsGo false l

/-- JS `String.prototype.includes` on character lists. -/
def includesSeq : List Char → List Char → Bool
  | [], needle => needle.isEmpty
  | c :: rest, needle => needle.isPrefixOf (c :: rest) || includesSeq rest needle

def isQuote (c : Char) : Bool := c = '"' || c = '\''

/-- Whether a `>`-free tag body matches `[^>]*rel=["']stylesheet["'][^>]*`. -/
def hasRelStylesheet (seg : List Char) : Bool :=
  includesSeq seg ("rel=\"stylesheet\"".data) ||
  includesSeq seg ("rel=\"stylesheet'".data) ||
  includesSeq seg ("rel='stylesheet\"".data) ||
  includesSeq seg ("rel='stylesheet'".data)

/-- The non-global replacement
`s.replace(/<link[^>]*rel=["']stylesheet["'][^>]*>/, '<style>' + crit + '</style>')`
of `optimizeHTMLFile`.  All parts of the pattern other than the final `>`
exclude `>`, so a match is a `<link` occurrence whose segment up to the
first following `>` contains `rel=` with quoted `stylesheet`; only the
first such occurrence is replaced.  (The JS replacement-string `$`-escapes
are not modelled; the claims only exercise the no-substitution path.) -/
def replaceFirstLink (crit : List Char) : List Char → List Char
  | [] => []
  | '<' :: 'l' :: 'i' :: 'n' :: 'k' :: rest =>
    match rest.dropWhile (fun c => !(c = '>')) with
    | '>' :: rest2 =>
      if hasRelStylesheet (rest.takeWhile (fun c => !(c = '>'))) then
        "<style>".data ++ crit ++ "</style>".data ++ rest2
      else '<' :: 'l' :: 'i' :: 'n' :: 'k' :: replaceFirstLink crit rest
    | _ => '<' :: 'l' :: 'i' :: 'n' :: 'k' :: rest
  | c :: rest => c :: replaceFirstLink crit rest

/-- Per-file outcome record of `optimizeHTMLFile`. -/
structure HTMLRecord where
  output : List Char
  originalSize : Nat
  optimizedSize : Nat

/-- `optimizeHTMLFile` from the build script (lines 335-382), on the file
content it reads: strip non-conditional HTML comments, collapse whitespace
runs, collapse inter-tag whitespace, inline the critical CSS artifact when
it exists (`none` models the artifact being absent: the inner try/catch
logs a warning and skips the substitution), trim, and return an ok record. -/
def optimizeHTMLFile (content : List Char) (criticalCSS : Option (List Char)) :
    Except String HTMLRecord :=
  let processed := collapseBetweenTags (collapseWS (stripHTMLComments content))
  let inlined :=
    match criticalCSS with
    | some crit => replaceFirstLink crit processed
    | none => processed
  let finalText := trimL inlined
  Except.ok ⟨finalText, content.length, finalText.length⟩

/-- Scanner for `/class=["']([^"']+)["']/g` of `purgeUnusedCSS`: collect the
captured attribute values in order.  The `Option` state holds the reversed
capture while inside a quoted value.  On a failed attempt the engine
advances one character (an empty capture or a missing closing quote never
matches); on a successful match it continues after the closing quote. -/
def classAttrGo : Option (List Char) → List Char → List (List Char)
  | none, 'c' :: 'l' :: 'a' :: 's' :: 's' :: '=' :: q :: rest =>
    if isQuote q then classAttrGo (some []) rest
    else classAttrGo none (q :: rest)
  | none, _ :: rest => classAttrGo none rest
  | none, [] => []
  | some acc, c :: rest =>
    if isQuote c then
      if acc.isEmpty then classAttrGo none rest
      else acc.reverse :: classAttrGo none rest
    else classAttrGo (some (c :: acc)) rest
  | some _, [] => []

/-- Scanner for `/id=["']([^"']+)["']/g` of `purgeUnusedCSS`. -/
def idAttrGo : Option (List Char) → List Char → List (List Char)
  | none, 'i' :: 'd' :: '=' :: q :: rest =>
    if isQuote q then idAttrGo (some []) rest
    else idAttrGo none (q :: rest)
  | none, _ :: rest => idAttrGo none rest
  | none, [] => []
  | some acc, c :: rest =>
    if isQuote c then
      if acc.isEmpty then idAttrGo none rest
      else acc.reverse :: idAttrGo none rest
    else idAttrGo (some (c :: acc)) rest
  | some _, [] => []

/-- Worker for `splitWS`; `acc` is the reversed current token, and the
Boolean is true inside a separator run (so further whitespace is skipped).
A maximal whitespace run is one separator, and a leading or trailing run
contributes an empty token, exactly as in the JS semantics of
`split(/\s+/)`. -/
def splitWSGo (inSep : Bool) (acc : List Char) : List Char → List (List Char)
  | [] => [acc.reverse]
  | c :: rest =>
    if isWS c then
      if inSep then splitWSGo true [] rest
      else acc.reverse :: splitWSGo true [] rest
    else splitWSGo false (c :: acc) rest

/-- JS `String.prototype.split(/\s+/)`. -/
def splitWS (l : List Char) : List (List Char) := splitWSGo false [] l

/-- The class tokens collected by `purgeUnusedCSS` (lines 232-241): every
`class="..."` attribute value of the markup, split on whitespace. -/
def usedClasses (html : List Char) : List (List Char) :=
  (classAttrGo none html).flatMap splitWS

/-- The id values collected by `purgeUnusedCSS` (lines 243-246). -/
def usedIds (html : List Char) : List (List Char) :=
  idAttrGo none html

/-- JS `String.prototype.split` on a single-character separator. -/
def splitChar (sep : Char) : List Char → List (List Char)
  | [] => [[]]
  | c :: rest =>
    if c = sep then [] :: splitChar sep rest
    else
      match splitChar sep rest with
      | [] => [[c]]
      | t :: ts => (c :: t) :: ts

/-- `css.split('}').filter(rule => rule.trim())` from `purgeUnusedCSS`. -/
def cssRules (css : List Char) : List (List Char) :=
  (splitChar '}' css).filter (fun r => !(trimL r).isEmpty)

/-- The element-type allow-list of `purgeUnusedCSS` (line 266). -/
def elementNames : List (List Char) :=
  ["html", "body", "a", "p", "h1", "h2", "h3", "h4", "h5", "h6", "ul", "ol",
   "li", "img", "button", "input", "select", "textarea", "form", "table",
   "tr", "td", "th", "div", "span", "section", "article", "header", "footer",
   "nav", "main"].map String.data

/-- JS `\w` word characters, for the `\b` boundary of the element regex. -/
def isWordChar (c : Char) : Bool := c.isAlpha || c.isDigit || c = '_'

/-- `/^(html|body|...|main)\b/.test(selector)`. -/
def matchesElementType (sel : List Char) : Bool :=
  elementNames.any (fun w =>
    w.isPrefixOf sel &&
    (match sel.drop w.length with
     | [] => true
     | d :: _ => !(isWordChar d)))

/-- The `shouldKeep` disjunction of `purgeUnusedCSS` (lines 260-266), on the
trimmed selector. -/
def shouldKeep (uc ui : List (List Char)) (st : List Char) : Bool :=
  headIs '@' st || headIs ':' st || includesSeq st ("::".data) ||
  uc.any (fun cls => includesSeq st ('.' :: cls)) ||
  ui.any (fun i => includesSeq st ('#' :: i)) ||
  matchesElementType st

/-- `rule.split('{')[0]`: the selector part of a split-off rule. -/
def ruleSelector (r : List Char) : List Char :=
  r.takeWhile (fun c => !(c = '{'))

/-- The rules `purgeUnusedCSS` keeps, in order (a rule with an empty
selector is skipped by the `if (!selector) continue`). -/
def keptRules (css html : List Char) : List (List Char) :=
  (cssRules css).filter (fun r =>
    !(ruleSelector r).isEmpty &&
    shouldKeep (usedClasses html) (usedIds html) (trimL (ruleSelector r)))

/-- `Array.prototype.join` with a separator. -/
def joinSep (sep : List Char) : List (List Char) → List Char
  | [] => []
  | [x] => x
  | x :: xs => x ++ sep ++ joinSep sep xs

/-- `purgeUnusedCSS` from `scripts/optimize-css.js` (lines 228-277): every
kept rule is re-terminated with `}` and the results joined by newlines. -/
def purgeUnusedCSS (css html : List Char) : List Char :=
  joinSep ['\n'] ((keptRules css html).map (fun r => r ++ ['}']))

/-- One entry of the violation list built by `validatePerformanceBudget`. -/
structure Violation where
  file : List Char
  size : Nat
  budget : Nat
  vtype : List Char
deriving DecidableEq, Repr

/-- The value returned by `validatePerformanceBudget` on success. -/
structure BudgetResult where
  totalSize : Nat
  violations : List Violation
  passed : Bool
deriving DecidableEq, Repr

/-- The `dist` tree as `validatePerformanceBudget` enumerates it: files at
the output root, and the `styles` and `js` subtrees (`none` models a
missing directory, whose `readdir` throws and is caught and skipped). -/
structure DistListing where
  htmlFiles : List (List Char × Nat)
  cssFiles : Option (List (List Char × Nat))
  jsFiles : Option (List (List Char × Nat))

/-- JS `String.prototype.endsWith` on character lists. -/
def endsWithSeq (l suffix : List Char) : Bool :=
  suffix.reverse.isPrefixOf l.reverse

/-- `CONFIG.BUDGETS.HTML`. -/
def HTML_BUDGET : Nat := 50 * 1024

/-- `CONFIG.BUDGETS.CSS`. -/
def CSS_BUDGET : Nat := 30 * 1024

/-- `CONFIG.BUDGETS.JS`. -/
def JS_BUDGET : Nat := 50 * 1024

/-- `CONFIG.BUDGETS.TOTAL`. -/
def TOTAL_BUDGET : Nat := 500 * 1024

/-- One category loop of `validatePerformanceBudget`: accumulate each file
size into the running total and append a violation when a file exceeds the
category budget. -/
def checkFiles (limit : Nat) (vtype : List Char) (pfx : List Char) :
    List (List Char × Nat) → Nat × List Violation → Nat × List Violation
  | [], acc => acc
  | (name, sz) :: rest, acc =>
    checkFiles limit vtype pfx rest
      (acc.1 + sz, if limit < sz then acc.2 ++ [⟨pfx ++ name, sz, limit, vtype⟩] else acc.2)

/-- A category whose directory is missing contributes nothing (the
`catch` around `readdir` in lines 430-432 and 451-453). -/
def checkOptionalDir (limit : Nat) (vtype : List Char) (pfx : List Char)
    (ext : List Char) (o : Option (List (List Char × Nat)))
    (acc : Nat × List Violation) : Nat × List Violation :=
  match o with
  | none => acc
  | some files => checkFiles limit vtype pfx (files.filter (fun f => endsWithSeq f.1 ext)) acc

/-- `validatePerformanceBudget` from the build script (lines 388-491):
HTML files at the root, CSS files under `styles`, JS files under `js`, then
the grand total against `CONFIG.BUDGETS.TOTAL`; `passed` is the emptiness
of the violation list. -/
def validatePerformanceBudget (l : DistListing) : BudgetResult :=
  let a1 := checkFiles HTML_BUDGET "HTML".data []
    (l.htmlFiles.filter (fun f => endsWithSeq f.1 ".html".data)) (0, [])
  let a2 := checkOptionalDir CSS_BUDGET "CSS".data "styles/".data ".css".data l.cssFiles a1
  let a3 := checkOptionalDir JS_BUDGET "JS".data [] ".js".data l.jsFiles a2
  let violations :=
    if TOTAL_BUDGET < a3.1
    then a3.2 ++ [⟨"TOTAL".data, a3.1, TOTAL_BUDGET, "TOTAL".data⟩]
    else a3.2
  ⟨a3.1, violations, violations.isEmpty⟩

/-- One entry of `CONFIG.UNSPLASH_IMAGES` in the image script. -/
structure ImageEntry where
  url : String
  name : String
  imgType : String
  alt : String
deriving DecidableEq

/-- `CONFIG.UNSPLASH_IMAGES`: the configured image catalog. -/
def UNSPLASH_IMAGES : List ImageEntry :=
  [⟨"https://images.unsplash.com/photo-1438232992991-995b7058bbb3", "hero-worship",
    "hero", "Diverse congregation worshipping together in modern Nigerian church with raised hands"⟩,
   ⟨"https://images.unsplash.com/photo-1464207687429-7505649dae38", "church-exterior",
    "section", "Modern church building exterior with cross and welcoming entrance"⟩,
   ⟨"https://images.unsplash.com/photo-1519491050282-cf00c82424b4", "sanctuary-interior",
    "section", "Spacious church sanctuary with rows of seating and modern lighting"⟩,
   ⟨"https://images.unsplash.com/photo-1507692049790-de58290a4334", "worship-service",
    "section", "Congregation engaged in vibrant worship with praise team leading"⟩,
   ⟨"https://images.unsplash.com/photo-1528605248644-14dd04022da1", "prayer-meeting",
    "section", "Small group gathered in prayer circle holding hands"⟩,
   ⟨"https://images.unsplash.com/photo-1529070538774-1843cb3265df", "youth-ministry",
    "section", "Young people engaged in Bible study and fellowship"⟩,
   ⟨"https://images.unsplash.com/photo-1503454537195-1dcabb73ffb9", "children-ministry",
    "section", "Children participating in Sunday school activities with teacher"⟩,
   ⟨"https://images.unsplash.com/photo-1559027615-cd4628902d4a", "community-service",
    "section", "Church volunteers serving food to community members"⟩,
   ⟨"https://images.unsplash.com/photo-1497633762265-9d179a990aa6", "education-support",
    "section", "Students receiving educational support and mentorship"⟩,
   ⟨"https://images.unsplash.com/photo-1560250097-0b93528c311a", "pastor-portrait",
    "portrait", "Pastor John Adeyemi in pastoral attire with warm smile"⟩,
   ⟨"https://images.unsplash.com/photo-1573496359142-b8d87734a5a2", "co-pastor-portrait",
    "portrait", "Pastor Grace Adeyemi in professional attire with welcoming expression"⟩]

/-- The `results` counters of `processUnsplashImages`, plus the list of
entry names for which a download was actually attempted (a call of
`downloadImage`), in order. -/
structure ImageResults where
  downloaded : Nat
  skipped : Nat
  failed : Nat
  attempted : List String
deriving DecidableEq, Repr

/-- The acquisition loop of `processUnsplashImages` (lines 856-893) over an
arbitrary catalog.  `fileExists` models `existsSync` at the expected source
path for an entry name; `fetchOk` models whether `downloadImage` resolves.
An existing file is skipped without fetching; a failed fetch increments
`failed` and the loop continues with the remaining entries. -/
def processImages (fileExists fetchOk : String → Bool) : List ImageEntry → ImageResults
  | [] => ⟨0, 0, 0, []⟩
  | e :: rest =>
    let r := processImages fileExists fetchOk rest
    if fileExists e.name then
      ⟨r.downloaded, r.skipped + 1, r.failed, r.attempted⟩
    else if fetchOk e.name then
      ⟨r.downloaded + 1, r.skipped, r.failed, e.name :: r.attempted⟩
    else
      ⟨r.downloaded, r.skipped, r.failed + 1, e.name :: r.attempted⟩

/-- `processUnsplashImages`: the loop run on `CONFIG.UNSPLASH_IMAGES`. -/
def processUnsplashImages (fileExists fetchOk : String → Bool) : ImageResults :=
  processImages fileExists fetchOk UNSPLASH_IMAGES

/-- The effectful outcome of every stage of one `build()` run: each field is
the `StageResult` the corresponding stage call returns (for the budget
stage, the `dist` listing it reads when the enumeration succeeds; for the
report stage, the outcome of the `generateBuildReport` file write). -/
structure BuildEnv where
  clean : Except String Unit
  css : Except String Unit
  images : Except String Unit
  js : Except String Unit
  html : Except String Unit
  budgetIO : Except String DistListing
  report : Except String Unit

/-- `build()` from the build script (lines 545-647), returning the process
exit code together with whether the JSON build report was written.  Each
failed stage result is thrown, which jumps to the catch block (lines
637-646): it logs and exits 1 without calling `generateBuildReport`.  On
the success path the exit code is `0` iff `budget.passed`. -/
def build (env : BuildEnv) : Nat × Bool :=
  match env.clean with
  | .error _ => (1, false)
  | .ok _ =>
  match env.css with
  | .error _ => (1, false)
  | .ok _ =>
  match env.images with
  | .error _ => (1, false)
  | .ok _ =>
  match env.js with
  | .error _ => (1, false)
  | .ok _ =>
  match env.html with
  | .error _ => (1, false)
  | .ok _ =>
  match env.budgetIO with
  | .error _ => (1, false)
  | .ok listing =>
  match env.report with
  | .error _ => (1, false)
  | .ok _ => (if (validatePerformanceBudget listing).passed then 0 else 1, true)

theorem dropWS_length_le (l : List Char) : (dropWS l).length ≤ l.length :=
  (List.dropWhile_sublist isWS).length_le

theorem removeBlockCommentsGo_length_le (m : Bool) (l : List Char) :
    (removeBlockCommentsGo m l).length ≤ l.length := by
  induction m, l using removeBlockCommentsGo.induct with
  | case1 => simp [removeBlockCommentsGo]
  | case2 rest h ih =>
    simp only [removeBlockCommentsGo, h, if_true, List.length_cons]
    omega
  | case3 rest h =>
    simp only [removeBlockCommentsGo, h, Bool.not_eq_true, Bool.false_eq_true, if_false,
      List.length_cons] at *
    omega
  | case4 c rest hne ih =>
    simp only [removeBlockCommentsGo, List.length_cons]
    omega
  | case5 rest ih =>
    simp only [removeBlockCommentsGo, List.length_cons]
    omega
  | case6 c rest hne ih =>
    simp only [removeBlockCommentsGo, List.length_cons]
    omega
  | case7 => simp [removeBlockCommentsGo]

theorem removeBlockComments_length_le (l : List Char) :
    (removeBlockComments l).length ≤ l.length :=
  removeBlockCommentsGo_length_le false l

theorem removeLineCommentsGo_length_le (m : Bool) (l : List Char) :
    (removeLineCommentsGo m l).length ≤ l.length := by
  induction m, l using removeLineCommentsGo.induct with
  | case1 => simp [removeLineCommentsGo]
  | case2 rest ih =>
    simp only [removeLineCommentsGo, List.length_cons]
    omega
  | case3 c rest hne ih =>
    simp only [removeLineCommentsGo, List.length_cons]
    omega
  | case4 c rest h ih =>
    simp only [removeLineCommentsGo, h, if_true, List.length_cons]
    omega
  | case5 c rest h ih =>
    simp only [removeLineCommentsGo, h, Bool.not_eq_true, Bool.false_eq_true, if_false,
      List.length_cons] at *
    omega

theorem removeLineComments_length_le (l : List Char) :
    (removeLineComments l).length ≤ l.length :=
  removeLineCommentsGo_length_le false l

theorem collapseWS_length_le (l : List Char) :
    (collapseWS l).length ≤ l.length := by
  induction l using collapseWS.induct with
  | case1 => simp [collapseWS]
  | case2 d h => simp [collapseWS, h]
  | case3 d hd e tl he ih =>
    simp only [collapseWS, hd, he, if_true, List.length_cons] at *
    omega
  | case4 d hd e tl he ih =>
    simp only [collapseWS, hd, he, Bool.not_eq_true, Bool.false_eq_true, if_true,
      if_false, List.length_cons] at *
    omega
  | case5 d tl h ih =>
    simp only [collapseWS, h, Bool.not_eq_true, Bool.false_eq_true, if_false,
      List.length_cons] at *
    omega

theorem stripPunctWS_length_le (P : Char → Bool) (m : Bool) (l : List Char) :
    (stripPunctWS P m l).length ≤ l.length := by
  induction l generalizing m with
  | nil => simp [stripPunctWS]
  | cons c rest ih =>
    have h1 := ih true
    have h2 := ih false
    simp only [stripPunctWS]
    split
    · split
      · simpa using Nat.le_succ_of_le h1
      · split
        · exact Nat.le_succ_of_le h2
        · simpa using h2
    · split
      · simpa using h1
      · simpa using h2

theorem stripAroundPunct_length_le (P : Char → Bool) (l : List Char) :
    (stripAroundPunct P l).length ≤ l.length :=
  stripPunctWS_length_le P false l

theorem dropSemiBeforeBrace_length_le (l : List Char) :
    (dropSemiBeforeBrace l).length ≤ l.length := by
  induction l using dropSemiBeforeBrace.induct with
  | case1 => simp [dropSemiBeforeBrace]
  | case2 rest ih =>
    simp only [dropSemiBeforeBrace, List.length_cons]
    omega
  | case3 c rest hne ih =>
    simp only [dropSemiBeforeBrace, List.length_cons]
    omega

theorem removeEmptyRulesGo_length_le (m : Bool) (seg l : List Char) :
    (removeEmptyRulesGo m seg l).length ≤ seg.length + l.length := by
  induction m, seg, l using removeEmptyRulesGo.induct with
  | case1 x rest ih =>
    simp only [removeEmptyRulesGo, List.length_nil, List.length_cons] at *
    simp
    omega
  | case2 x c rest hne ih =>
    simp only [removeEmptyRulesGo, hne, List.length_nil, List.length_cons, if_false,
      eq_self_iff_true] at *
    omega
  | case3 x => simp [removeEmptyRulesGo]
  | case4 seg => simp [removeEmptyRulesGo]
  | case5 seg rest h ih =>
    simp only [removeEmptyRulesGo, h, if_true, List.length_nil, List.length_cons] at *
    omega
  | case6 seg rest h ih =>
    simp only [removeEmptyRulesGo, h, Bool.not_eq_true, Bool.false_eq_true, if_false,
      List.length_append, List.length_reverse, List.length_nil, List.length_cons] at *
    omega
  | case7 seg rest ih =>
    simp only [removeEmptyRulesGo, List.length_append, List.length_reverse,
      List.length_nil, List.length_cons] at *
    omega
  | case8 seg c rest hne1 hne2 ih =>
    simp only [removeEmptyRulesGo, List.length_cons] at *
    omega

theorem removeEmptyRules_length_le (l : List Char) :
    (removeEmptyRules l).length ≤ l.length := by
  have h := removeEmptyRulesGo_length_le false [] l
  simpa [removeEmptyRules] using h

theorem trimL_length_le (l : List Char) : (trimL l).length ≤ l.length := by
  have h1 := dropWS_length_le l
  have h2 := dropWS_length_le ((dropWS l).reverse)
  simp only [trimL, List.length_reverse] at *
  omega

/-- Every `minifyCSS` pass is length non-increasing. -/
theorem minifyCSS_length_le_aux (css : List Char) :
    (minifyCSS css).length ≤ css.length := by
  have h1 := removeBlockComments_length_le css
  have h2 := collapseWS_length_le (removeBlockComments css)
  have h3 := stripAroundPunct_length_le isCSSPunct (collapseWS (removeBlockComments css))
  have h4 := dropSemiBeforeBrace_length_le
    (stripAroundPunct isCSSPunct (collapseWS (removeBlockComments css)))
  have h5 := removeEmptyRules_length_le
    (dropSemiBeforeBrace (stripAroundPunct isCSSPunct (collapseWS (removeBlockComments css))))
  have h6 := trimL_length_le
    (removeEmptyRules (dropSemiBeforeBrace
      (stripAroundPunct isCSSPunct (collapseWS (removeBlockComments css)))))
  simp only [minifyCSS]
  omega

/-- Every script-minifier pass is length non-increasing. -/
theorem minifyJS_length_le_aux (s : List Char) :
    (minifyJS s).length ≤ s.length := by
  have h1 := removeBlockComments_length_le s
  have h2 := removeLineComments_length_le (removeBlockComments s)
  have h3 := collapseWS_length_le (removeLineComments (removeBlockComments s))
  have h4 := stripAroundPunct_length_le isJSPunct
    (collapseWS (removeLineComments (removeBlockComments s)))
  have h5 := trimL_length_le
    (stripAroundPunct isJSPunct (collapseWS (removeLineComments (removeBlockComments s))))
  simp only [minifyJS]
  omega

/-- C10: for every input string `s`, the length of `minifyCSS s` is at most
the length of `s`: every minification step only removes characters or
collapses whitespace runs, and none can grow the text. -/
theorem c10_minifyCSS_length_monotone (css : List Char) :
    (minifyCSS css).length ≤ css.length :=
  minifyCSS_length_le_aux css

/-- C3 counterexample: CSS minification is not idempotent — on
`"a{b:c;;}"` the second pass still rewrites the remaining `;}` — and the
script minification transform is not idempotent either: on
`"//* x */*abc*/"` the first pass deletes `/* x */` and thereby splices a
new complete block comment `/*abc*/` into the output, which the second pass
deletes entirely. -/
theorem c3_minify_idempotence_counterexample :
    minifyCSS (minifyCSS "a\x7bb:c;;\x7d".data) ≠ minifyCSS "a\x7bb:c;;\x7d".data ∧
    minifyJS (minifyJS "//* x */*abc*/".data) ≠ minifyJS "//* x */*abc*/".data := by
  constructor <;> decide

/-- C3 amended: a second application of `minifyCSS` or of the script
minification transform need not be the identity, but it can only remove
characters: the output length of the second pass is at most the output
length of the first. -/
theorem c3_minify_second_pass_non_increasing (s : List Char) :
    (minifyCSS (minifyCSS s)).length ≤ (minifyCSS s).length ∧
    (minifyJS (minifyJS s)).length ≤ (minifyJS s).length :=
  ⟨minifyCSS_length_le_aux (minifyCSS s), minifyJS_length_le_aux (minifyJS s)⟩

/-- C5 counterexample: on the Scenario B source `"// comment\nconst x = 1;\n"`
the script minification transform does not produce `"const x=1;"`:
`=` is not in the punctuation class `[{}();,:]` of `minifyJSFile`, so the
spaces around `=` survive. -/
theorem c5_scenarioB_counterexample :
    minifyJS "// comment\nconst x = 1;\n".data ≠ "const x=1;".data := by
  decide

/-- C5 amended: on the Scenario B source the script minification transform
produces exactly `"const x = 1;"` — the comment is removed, whitespace runs
collapse, and the space before the trailing `;` is dropped, but the spaces
around `=` are retained because `=` is not in the transform's punctuation
class. -/
theorem c5_scenarioB_amended :
    minifyJS "// comment\nconst x = 1;\n".data = "const x = 1;".data := by
  decide

/-- In `validatePerformanceBudget` the `passed` flag is the emptiness of the
violation list. -/
theorem validate_passed_iff (l : DistListing) :
    (validatePerformanceBudget l).passed = true ↔
    (validatePerformanceBudget l).violations = [] := by
  simp [validatePerformanceBudget, List.isEmpty_iff]

/-- C1: the process exit code of `build()` is `0` exactly when every stage
(clean, css, images, js, html, budget enumeration, report write) returned a
successful result and the budget validation produced zero violations, and
it is `1` exactly otherwise (any stage failure or any budget violation). -/
theorem c1_build_exit_code_policy (env : BuildEnv) :
    ((build env).1 = 0 ↔
      (env.clean.isOk = true ∧ env.css.isOk = true ∧ env.images.isOk = true ∧
       env.js.isOk = true ∧ env.html.isOk = true ∧ env.report.isOk = true ∧
       ∃ listing, env.budgetIO = Except.ok listing ∧
         (validatePerformanceBudget listing).violations = [])) ∧
    ((build env).1 = 1 ↔
      ¬ (env.clean.isOk = true ∧ env.css.isOk = true ∧ env.images.isOk = true ∧
         env.js.isOk = true ∧ env.html.isOk = true ∧ env.report.isOk = true ∧
         ∃ listing, env.budgetIO = Except.ok listing ∧
           (validatePerformanceBudget listing).violations = [])) := by
  obtain ⟨c, s, i, j, h, b, r⟩ := env
  cases c <;> cases s <;> cases i <;> cases j <;> cases h <;> cases r <;> cases b <;>
    simp [build, Except.isOk, Except.toBool]
  rename_i l
  have hp := validate_passed_iff l
  by_cases hv : (validatePerformanceBudget l).violations = []
  · have hpt : (validatePerformanceBudget l).passed = true := hp.mpr hv
    simp [hv, hpt]
  · have hpf : (validatePerformanceBudget l).passed = false := by
      rw [Bool.eq_false_iff]
      intro ht
      exact hv (hp.mp ht)
    simp [hv, hpf]

/-- C2 counterexample: a run whose clean stage succeeded (so the output
directory was created) and whose CSS stage failed exits with code `1` and
does not write the JSON build report — `build()`'s catch block exits
without calling `generateBuildReport`. -/
theorem c2_report_on_failure_counterexample :
    build ⟨Except.ok (), Except.error "read failed", Except.ok (), Except.ok (),
      Except.ok (), Except.ok ⟨[], none, none⟩, Except.ok ()⟩ = (1, false) := rfl

/-- C2 amended: the JSON build report is written exactly when all of clean,
css, images, js, html and the budget enumeration succeeded and the report
write itself succeeded; on any stage failure the orchestrator exits 1
without writing a report. -/
theorem c2_report_written_iff_all_stages_ok (env : BuildEnv) :
    (build env).2 = true ↔
      (env.clean.isOk = true ∧ env.css.isOk = true ∧ env.images.isOk = true ∧
       env.js.isOk = true ∧ env.html.isOk = true ∧ env.budgetIO.isOk = true ∧
       env.report.isOk = true) := by
  obtain ⟨c, s, i, j, h, b, r⟩ := env
  cases c <;> cases s <;> cases i <;> cases j <;> cases h <;> cases r <;> cases b <;>
    simp [build, Except.isOk, Except.toBool]

theorem processImages_counts_sum (fe fo : String → Bool) (cat : List ImageEntry) :
    (processImages fe fo cat).downloaded + (processImages fe fo cat).skipped +
      (processImages fe fo cat).failed = cat.length := by
  induction cat with
  | nil => simp [processImages]
  | cons e rest ih =>
    simp only [processImages, List.length_cons]
    split
    · simp only []
      omega
    · split
      · simp only []
        omega
      · simp only []
        omega

theorem processImages_attempted_source (fe fo : String → Bool) (cat : List ImageEntry)
    (n : String) (h : n ∈ (processImages fe fo cat).attempted) :
    ∃ e, e ∈ cat ∧ e.name = n ∧ fe e.name = false := by
  induction cat with
  | nil => simp [processImages] at h
  | cons e rest ih =>
    simp only [processImages] at h
    by_cases hfe : fe e.name = true
    · simp only [hfe, if_true] at h
      obtain ⟨a, ha, h1, h2⟩ := ih h
      exact ⟨a, List.mem_cons_of_mem e ha, h1, h2⟩
    · have hfalse : fe e.name = false := by
        rw [Bool.eq_false_iff]; exact hfe
      by_cases hfo : fo e.name = true
      · simp only [hfalse, hfo, Bool.false_eq_true, if_false, if_true,
          List.mem_cons] at h
        rcases h with h | h
        · exact ⟨e, List.mem_cons_self e rest, h.symm, hfalse⟩
        · obtain ⟨a, ha, h1, h2⟩ := ih h
          exact ⟨a, List.mem_cons_of_mem e ha, h1, h2⟩
      · have hfof : fo e.name = false := by
          rw [Bool.eq_false_iff]; exact hfo
        simp only [hfalse, hfof, Bool.false_eq_true, if_false, List.mem_cons] at h
        rcases h with h | h
        · exact ⟨e, List.mem_cons_self e rest, h.symm, hfalse⟩
        · obtain ⟨a, ha, h1, h2⟩ := ih h
          exact ⟨a, List.mem_cons_of_mem e ha, h1, h2⟩

theorem processImages_attempted_complete (fe fo : String → Bool) (cat : List ImageEntry)
    (e : ImageEntry) (he : e ∈ cat) (hfe : fe e.name = false) :
    e.name ∈ (processImages fe fo cat).attempted := by
  induction cat with
  | nil => cases he
  | cons a rest ih =>
    simp only [processImages]
    rcases List.mem_cons.mp he with rfl | hmem
    · simp only [hfe, Bool.false_eq_true, if_false]
      by_cases hfo : fo e.name = true
      · simp [hfo]
      · have : fo e.name = false := by rw [Bool.eq_false_iff]; exact hfo
        simp [this]
    · have hmem2 := ih hmem
      by_cases hfa : fe a.name = true
      · simpa [hfa] using hmem2
      · have hfa2 : fe a.name = false := by rw [Bool.eq_false_iff]; exact hfa
        by_cases hfo : fo a.name = true
        · simp [hfa2, hfo, List.mem_cons, hmem2]
        · have hfo2 : fo a.name = false := by rw [Bool.eq_false_iff]; exact hfo
          simp [hfa2, hfo2, List.mem_cons, hmem2]

/-- C8: image acquisition on the configured catalog is idempotent and
failure-isolated: a catalog entry whose target file already exists at its
source path is never fetched (its name is absent from the attempted
downloads), and an entry whose file is missing is always fetched — even
when every fetch fails, each remaining missing entry is still attempted and
merely recorded in the failed counter. -/
theorem c8_image_acquisition_idempotent_isolated (fe fo : String → Bool)
    (e : ImageEntry) (he : e ∈ UNSPLASH_IMAGES) :
    (fe e.name = true → e.name ∉ (processUnsplashImages fe fo).attempted) ∧
    (fe e.name = false → e.name ∈ (processUnsplashImages fe fo).attempted) := by
  constructor
  · intro hfe hmem
    obtain ⟨a, _, h1, h2⟩ :=
      processImages_attempted_source fe fo UNSPLASH_IMAGES e.name hmem
    rw [h1] at h2
    rw [hfe] at h2
    cases h2
  · intro hfe
    exact processImages_attempted_complete fe fo UNSPLASH_IMAGES e he hfe

/-- C8 witness: with only `hero-worship` present on disk and every fetch
failing, `hero-worship` is never attempted while `church-exterior` still
is. -/
theorem c8_image_acquisition_witness :
    "hero-worship" ∉ (processUnsplashImages (fun n => decide (n = "hero-worship"))
      (fun _ => false)).attempted ∧
    "church-exterior" ∈ (processUnsplashImages (fun n => decide (n = "hero-worship"))
      (fun _ => false)).attempted := by
  constructor
  · exact (c8_image_acquisition_idempotent_isolated
      (fun n => decide (n = "hero-worship")) (fun _ => false)
      ⟨"https://images.unsplash.com/photo-1438232992991-995b7058bbb3", "hero-worship",
        "hero", "Diverse congregation worshipping together in modern Nigerian church with raised hands"⟩
      (by decide)).1 (by decide)
  · exact (c8_image_acquisition_idempotent_isolated
      (fun n => decide (n = "hero-worship")) (fun _ => false)
      ⟨"https://images.unsplash.com/photo-1464207687429-7505649dae38", "church-exterior",
        "section", "Modern church building exterior with cross and welcoming entrance"⟩
      (by decide)).2 (by decide)

/-- C9: after `processUnsplashImages` completes, every catalog entry has
been counted in exactly one of the three counters: downloaded + skipped +
failed equals the number of entries of the configured image catalog. -/
theorem c9_image_counters_partition (fe fo : String → Bool) :
    (processUnsplashImages fe fo).downloaded + (processUnsplashImages fe fo).skipped +
      (processUnsplashImages fe fo).failed = UNSPLASH_IMAGES.length :=
  processImages_counts_sum fe fo UNSPLASH_IMAGES

/-- C7: when the critical-CSS artifact does not exist, `optimizeHTMLFile`
succeeds (returns an ok record, no error), and its output is exactly the
comment-stripping and whitespace-collapsing text transformation with no
inline-style substitution: every substring of the output, in particular any
external stylesheet `<link>` element, is exactly a substring of that pure
text transformation, so the link is left intact and no `<style>` tag is
introduced. -/
theorem c7_html_missing_critical_css (content : List Char) :
    ∃ rec, optimizeHTMLFile content none = Except.ok rec ∧
      rec.output = trimL (collapseBetweenTags (collapseWS (stripHTMLComments content))) ∧
      ∀ t : List Char, t <:+: rec.output ↔
        t <:+: trimL (collapseBetweenTags (collapseWS (stripHTMLComments content))) :=
  ⟨_, rfl, rfl, fun _ => Iff.rfl⟩

theorem checkFiles_snd_of_within (limit : Nat) (vtype pfx : List Char) :
    ∀ (files : List (List Char × Nat)) (acc : Nat × List Violation),
    (∀ f ∈ files, f.2 ≤ limit) →
    (checkFiles limit vtype pfx files acc).2 = acc.2 := by
  intro files
  induction files with
  | nil => intro acc h; rfl
  | cons f rest ih =>
    intro acc h
    obtain ⟨name, sz⟩ := f
    have hf : sz ≤ limit := h (name, sz) (List.mem_cons_self _ _)
    have hrest : ∀ g ∈ rest, g.2 ≤ limit := fun g hg => h g (List.mem_cons_of_mem _ hg)
    simp only [checkFiles]
    rw [if_neg (by omega)]
    exact ih _ hrest

/-- C6: if the artifacts sum to 520KB against the 500KB total budget and no
individual file exceeds its category budget, budget validation fails with
exactly one violation, of the TOTAL category, whose overage is `20*1024`
bytes. -/
theorem c6_scenarioD_total_budget (l : DistListing)
    (h1 : ∀ f ∈ l.htmlFiles.filter (fun f => endsWithSeq f.1 ".html".data),
      f.2 ≤ HTML_BUDGET)
    (h2 : ∀ fs, l.cssFiles = some fs →
      ∀ f ∈ fs.filter (fun f => endsWithSeq f.1 ".css".data), f.2 ≤ CSS_BUDGET)
    (h3 : ∀ fs, l.jsFiles = some fs →
      ∀ f ∈ fs.filter (fun f => endsWithSeq f.1 ".js".data), f.2 ≤ JS_BUDGET)
    (htot : (validatePerformanceBudget l).totalSize = 520 * 1024) :
    (validatePerformanceBudget l).passed = false ∧
    (validatePerformanceBudget l).violations =
      [⟨"TOTAL".data, 520 * 1024, 500 * 1024, "TOTAL".data⟩] ∧
    ∀ v ∈ (validatePerformanceBudget l).violations, v.size - v.budget = 20 * 1024 := by
  simp only [validatePerformanceBudget] at htot ⊢
  set A1 := checkFiles HTML_BUDGET "HTML".data []
    (l.htmlFiles.filter (fun f => endsWithSeq f.1 ".html".data))
    (0, ([] : List Violation)) with hA1
  set A2 := checkOptionalDir CSS_BUDGET "CSS".data "styles/".data ".css".data
    l.cssFiles A1 with hA2
  set A3 := checkOptionalDir JS_BUDGET "JS".data [] ".js".data l.jsFiles A2 with hA3
  have f1 : A1.2 = [] := by
    rw [hA1, checkFiles_snd_of_within _ _ _ _ _ h1]
  have f2 : A2.2 = [] := by
    rw [hA2]
    cases hc : l.cssFiles with
    | none => simpa [checkOptionalDir] using f1
    | some fs =>
      simp only [checkOptionalDir]
      rw [checkFiles_snd_of_within _ _ _ _ _ (h2 fs hc)]
      exact f1
  have f3 : A3.2 = [] := by
    rw [hA3]
    cases hc : l.jsFiles with
    | none => simpa [checkOptionalDir] using f2
    | some fs =>
      simp only [checkOptionalDir]
      rw [checkFiles_snd_of_within _ _ _ _ _ (h3 fs hc)]
      exact f2
  rw [htot] at *
  rw [f3]
  have hcond : TOTAL_BUDGET < 520 * 1024 := by norm_num [TOTAL_BUDGET]
  rw [if_pos hcond]
  refine ⟨rfl, ?_, ?_⟩
  · simp [TOTAL_BUDGET]
  · intro v hv
    simp only [List.nil_append, List.mem_singleton] at hv
    subst hv
    simp [TOTAL_BUDGET]

/-- C6 witness: eleven HTML files, each within the 50KB per-file budget,
summing to 520KB. -/
theorem c6_scenarioD_witness :
    (validatePerformanceBudget ⟨[("a1.html".data, 51200), ("a2.html".data, 51200),
      ("a3.html".data, 51200), ("a4.html".data, 51200), ("a5.html".data, 51200),
      ("a6.html".data, 51200), ("a7.html".data, 51200), ("a8.html".data, 51200),
      ("a9.html".data, 51200), ("b1.html".data, 51200), ("b2.html".data, 20480)],
      none, none⟩).passed = false ∧
    (validatePerformanceBudget ⟨[("a1.html".data, 51200), ("a2.html".data, 51200),
      ("a3.html".data, 51200), ("a4.html".data, 51200), ("a5.html".data, 51200),
      ("a6.html".data, 51200), ("a7.html".data, 51200), ("a8.html".data, 51200),
      ("a9.html".data, 51200), ("b1.html".data, 51200), ("b2.html".data, 20480)],
      none, none⟩).violations =
      [⟨"TOTAL".data, 520 * 1024, 500 * 1024, "TOTAL".data⟩] := by
  have h := c6_scenarioD_total_budget ⟨[("a1.html".data, 51200), ("a2.html".data, 51200),
      ("a3.html".data, 51200), ("a4.html".data, 51200), ("a5.html".data, 51200),
      ("a6.html".data, 51200), ("a7.html".data, 51200), ("a8.html".data, 51200),
      ("a9.html".data, 51200), ("b1.html".data, 51200), ("b2.html".data, 20480)],
      none, none⟩
    (by decide) (by intro fs hfs; cases hfs) (by intro fs hfs; cases hfs) (by decide)
  exact ⟨h.1, h.2.1⟩

theorem includesSeq_iff (hay needle : List Char) :
    includesSeq hay needle = true ↔ needle <:+: hay := by
  induction hay with
  | nil => simp [includesSeq, List.infix_nil, List.isEmpty_iff]
  | cons c rest ih =>
    simp [includesSeq, List.infix_cons_iff, ih, List.isPrefixOf_iff_prefix]

theorem splitWSGo_tokens_no_ws :
    ∀ (l : List Char) (m : Bool) (acc : List Char),
    (∀ c ∈ acc, isWS c = false) →
    ∀ t ∈ splitWSGo m acc l, ∀ c ∈ t, isWS c = false := by
  intro l
  induction l with
  | nil =>
    intro m acc hacc t ht c hc
    simp only [splitWSGo, List.mem_singleton] at ht
    subst ht
    exact hacc c (List.mem_reverse.mp hc)
  | cons d rest ih =>
    intro m acc hacc t ht c hc
    have hnil : ∀ x ∈ ([] : List Char), isWS x = false := by intro x hx; cases hx
    by_cases hws : isWS d = true
    · cases m with
      | false =>
        simp only [splitWSGo, hws, if_true, Bool.false_eq_true, if_false,
          List.mem_cons] at ht
        rcases ht with rfl | ht2
        · exact hacc c (List.mem_reverse.mp hc)
        · exact ih true [] hnil t ht2 c hc
      | true =>
        simp only [splitWSGo, hws, if_true] at ht
        exact ih true [] hnil t ht c hc
    · have hws2 : isWS d = false := by rw [Bool.eq_false_iff]; exact hws
      simp only [splitWSGo, hws2, Bool.false_eq_true, if_false] at ht
      refine ih false (d :: acc) ?_ t ht c hc
      intro x hx
      rcases List.mem_cons.mp hx with rfl | hx
      · exact hws2
      · exact hacc x hx

theorem mem_usedClasses_no_ws (html cls : List Char) (h : cls ∈ usedClasses html) :
    ∀ c ∈ cls, isWS c = false := by
  rw [usedClasses, List.mem_flatMap] at h
  obtain ⟨v, _, hcls⟩ := h
  rw [splitWS] at hcls
  exact splitWSGo_tokens_no_ws v false [] (by intro x hx; cases hx) cls hcls

theorem infix_dropWhile_of_false (p : Char → Bool) :
    ∀ (l t : List Char), t ≠ [] → (∀ c ∈ t, p c = false) → t <:+: l →
    t <:+: l.dropWhile p := by
  intro l
  induction l with
  | nil =>
    intro t ht hp hinf
    rw [List.infix_nil] at hinf
    exact absurd hinf ht
  | cons c rest ih =>
    intro t ht hp hinf
    by_cases hpc : p c = true
    · rw [List.dropWhile_cons, if_pos hpc]
      rcases List.infix_cons_iff.mp hinf with hpre | hinf2
      · obtain ⟨s, hs⟩ := hpre
        cases t with
        | nil => exact absurd rfl ht
        | cons a t2 =>
          have ha : a = c := by injection hs
          have := hp a (List.mem_cons_self _ _)
          rw [ha, hpc] at this
          cases this
      · exact ih t ht hp hinf2
    · rw [List.dropWhile_cons, if_neg hpc]
      exact hinf

theorem infix_trimL_of_no_ws (l t : List Char) (ht : t ≠ [])
    (hws : ∀ c ∈ t, isWS c = false) (hinf : t <:+: l) : t <:+: trimL l := by
  have h1 : t <:+: dropWS l := infix_dropWhile_of_false isWS l t ht hws hinf
  have h2 : t.reverse <:+: (dropWS l).reverse := List.reverse_infix.mpr h1
  have h3 : t.reverse <:+: dropWS ((dropWS l).reverse) := by
    refine infix_dropWhile_of_false isWS _ _ ?_ ?_ h2
    · simpa using ht
    · intro c hc
      exact hws c (List.mem_reverse.mp hc)
  have h4 : t.reverse.reverse <:+: (dropWS ((dropWS l).reverse)).reverse :=
    List.reverse_infix.mpr h3
  simpa [trimL] using h4

theorem mem_joinSep (sep : List Char) :
    ∀ (L : List (List Char)) (x : List Char), x ∈ L → x <:+: joinSep sep L := by
  intro L
  induction L with
  | nil => intro x hx; cases hx
  | cons y ys ih =>
    intro x hx
    rcases List.mem_cons.mp hx with rfl | hmem
    · cases ys with
      | nil => simp [joinSep]
      | cons z zs =>
        refine ⟨[], sep ++ joinSep sep (z :: zs), ?_⟩
        simp [joinSep]
    · cases ys with
      | nil => cases hmem
      | cons z zs =>
        obtain ⟨s, t, hst⟩ := ih x hmem
        refine ⟨(y ++ sep) ++ s, t, ?_⟩
        simp only [joinSep]
        rw [← hst]
        simp [List.append_assoc]

/-- C4 counterexample: the claim fails under its verbatim-substring reading.
With the rule `.button{color:red}` and markup `<div class="button-large">`,
the selector contains the literal class token `button`, and `button` does
appear verbatim inside the `class="..."` attribute value `button-large`,
yet `purgeUnusedCSS` drops the rule: the collected token is `button-large`,
and `.button` does not contain `.button-large`, so the purged output is
empty. -/
theorem c4_purge_soundness_counterexample :
    "button".data <:+: "button-large".data ∧
    "button-large".data ∈ usedClasses "<div class=\"button-large\"></div>".data ∧
    ('.' :: "button".data) <:+: ruleSelector ".button\x7bcolor:red".data ∧
    ".button\x7bcolor:red".data ∈ cssRules ".button\x7bcolor:red\x7d".data ∧
    purgeUnusedCSS ".button\x7bcolor:red\x7d".data
      "<div class=\"button-large\"></div>".data = [] := by
  refine ⟨?_, ?_, ?_, ?_, ?_⟩ <;> decide

/-- C4 amended: purge soundness holds at token granularity.  For every rule
of the split CSS whose selector contains `.cls` for some class token `cls`
collected from the reference markup (a whitespace-separated token of a
`class="..."` attribute value), the rule — with its `}` terminator — is
present in the purged output. -/
theorem c4_purge_soundness_amended (css html r cls : List Char)
    (hr : r ∈ cssRules css)
    (hcls : cls ∈ usedClasses html)
    (hsel : ('.' :: cls) <:+: ruleSelector r) :
    (r ++ ['}']) <:+: purgeUnusedCSS css html := by
  have hselne : (ruleSelector r).isEmpty = false := by
    rw [Bool.eq_false_iff]
    intro hemp
    rw [List.isEmpty_iff] at hemp
    rw [hemp, List.infix_nil] at hsel
    cases hsel
  have hnws : ∀ c ∈ ('.' :: cls), isWS c = false := by
    intro c hc
    rcases List.mem_cons.mp hc with rfl | hc
    · decide
    · exact mem_usedClasses_no_ws html cls hcls c hc
  have htrim : ('.' :: cls) <:+: trimL (ruleSelector r) :=
    infix_trimL_of_no_ws (ruleSelector r) ('.' :: cls) (by simp) hnws hsel
  have hinc : includesSeq (trimL (ruleSelector r)) ('.' :: cls) = true :=
    (includesSeq_iff _ _).mpr htrim
  have hkeep : shouldKeep (usedClasses html) (usedIds html)
      (trimL (ruleSelector r)) = true := by
    have hany : (usedClasses html).any
        (fun c => includesSeq (trimL (ruleSelector r)) ('.' :: c)) = true :=
      List.any_eq_true.mpr ⟨cls, hcls, hinc⟩
    simp [shouldKeep, hany]
  have hkept : r ∈ keptRules css html := by
    rw [keptRules, List.mem_filter]
    refine ⟨hr, ?_⟩
    rw [Bool.and_eq_true]
    constructor
    · rw [hselne]; rfl
    · exact hkeep
  have hmap : (r ++ ['}']) ∈ (keptRules css html).map (fun q => q ++ ['}']) :=
    List.mem_map_of_mem _ hkept
  exact mem_joinSep ['\n'] _ _ hmap

/-- C4 witness: the rule `.used{color:red}` survives purging against markup
`<div class="used">`. -/
theorem c4_purge_soundness_witness :
    ".used\x7bcolor:red".data ∈ cssRules ".used\x7bcolor:red\x7d".data ∧
    "used".data ∈ usedClasses "<div class=\"used\"></div>".data ∧
    ('.' :: "used".data) <:+: ruleSelector ".used\x7bcolor:red".data ∧
    (".used\x7bcolor:red".data ++ ['\x7d']) <:+:
      purgeUnusedCSS ".used\x7bcolor:red\x7d".data "<div class=\"used\"></div>".data := by
  refine ⟨by decide, by decide, by decide, ?_⟩
  exact c4_purge_soundness_amended ".used\x7bcolor:red\x7d".data
    "<div class=\"used\"></div>".data ".used\x7bcolor:red".data "used".data
    (by decide) (by decide) (by decide)
